import Mathlib

/-!
Verification of `src/ai_engine/pattern_recognizer.py` (class `PatternRecognizer`).

The Python module is shallowly embedded:
* Python exceptions are values of `PyErr`; a fallible operation returns `Except`.
* External library calls (model load, tokenizer load, the embedding model, DBSCAN)
  are oracles: functions of type `... → Except String ...` supplied as arguments
  or stored in the `Recognizer` state, where the `String` is the raised
  exception's message.
* The Python `ast` module is embedded as the `PyNode` inductive covering the
  node kinds the code inspects (`Module`, `ClassDef`, `FunctionDef`); every other
  node kind is `other`.  `ast.walk`'s breadth-first traversal is `walk`.
* Python dicts that are iterated in insertion order are association lists.
-/

set_option autoImplicit false

/-- A Python exception, as far as this module distinguishes them:
either the module's own `PatternAnalysisError` (from `.exceptions`),
or any other ("raw") exception, carrying its message. -/
inductive PyErr where
  | raw (msg : String)
  | patternAnalysisError (msg : String)
  deriving DecidableEq, Repr

/-- A pattern record produced by `PatternRecognizer.analyze`: the dict
`{'type', 'name', 'file', 'pattern_type', 'data', 'frequency'}`.
The nested `data` dict holds `name` (always) and `class` (methods only),
embedded as `dataName` and `dataClass`. -/
structure Pattern where
  type : String
  name : String
  file : String
  pattern_type : String
  dataName : String
  dataClass : Option String
  frequency : Nat
  deriving DecidableEq, Repr

/-- The subset of Python AST nodes `analyze` inspects.  `decorators` embeds
`decorator_list` (only its emptiness and not its contents matter to the code,
but we keep the names).  Child nodes other than the statement body (bases,
argument lists, decorator expressions) can never be `ClassDef`/`FunctionDef`
nodes, so they are absorbed into `other`. -/
inductive PyNode where
  | module (body : List PyNode)
  | classDef (name : String) (body : List PyNode)
  | functionDef (name : String) (decorators : List String) (body : List PyNode)
  | other
  deriving Repr

/-- Embeds `ast.iter_child_nodes`, restricted to children that can contain or be
definition nodes: the statement body. -/
def PyNode.children : PyNode → List PyNode
  | .module body => body
  | .classDef _ body => body
  | .functionDef _ _ body => body
  | .other => []

/-- The worklist loop of `ast.walk`: pop the front node, yield it, and append
its children to the back of the queue (breadth-first order). -/
def walkAux : List PyNode → List PyNode
  | [] => []
  | n :: rest => n :: walkAux (rest ++ n.children)
termination_by q => sizeOf q
decreasing_by
  simp_all
  have h1 : sizeOf (rest ++ n.children) + 1 = sizeOf rest + sizeOf n.children := by
    induction rest with
    | nil => simp; omega
    | cons a as ih => simp [ih]; omega
  have h2 : sizeOf n.children ≤ sizeOf n + 1 := by
    cases n <;> simp [PyNode.children] <;> omega
  omega

/-- Embeds `ast.walk(tree)`: the tree's nodes in breadth-first order, root first. -/
def walk (tree : PyNode) : List PyNode := walkAux [tree]

/-- The pattern record appended for a `ClassDef` node. -/
def classPattern (file_path name : String) : Pattern :=
  { type := "class_definition", name := name, file := file_path,
    pattern_type := "class", dataName := name, dataClass := none, frequency := 1 }

/-- The pattern record appended for a `FunctionDef` found directly in a class
body (the inner `for item in node.body` loop). -/
def methodPattern (file_path className name : String) : Pattern :=
  { type := "method_definition", name := name, file := file_path,
    pattern_type := "method", dataName := name, dataClass := some className,
    frequency := 1 }

/-- The records of the inner loop `for item in node.body: if isinstance(item,
ast.FunctionDef)` of the `ClassDef` branch. -/
def methodPatterns (file_path className : String) (body : List PyNode) : List Pattern :=
  body.filterMap fun item =>
    match item with
    | .functionDef n _ _ => some (methodPattern file_path className n)
    | _ => none

/-- The record built in the `elif isinstance(node, ast.FunctionDef)` branch:
initialized as a function_definition, then overridden to a decorator record
when `node.decorator_list` is non-empty. -/
def functionPattern (file_path name : String) (decorators : List String) : Pattern :=
  let pattern : Pattern :=
    { type := "function_definition", name := name, file := file_path,
      pattern_type := "function", dataName := name, dataClass := none,
      frequency := 1 }
  if decorators.isEmpty then pattern
  else { pattern with type := "decorator", pattern_type := "decorator" }

/-- One iteration of `for node in ast.walk(tree)` in `analyze`.  The state is
`(class_scope, patterns)`; `class_scope` holds the enclosing class name or
`none`.  In the `ClassDef` branch the code sets `class_scope = node`, appends
the class and method records, and then — because the trailing
`if isinstance(node, ast.ClassDef): class_scope = None` runs in the same
iteration — resets it to `none` before the next node is examined. -/
def analyzeStep (file_path : String) (acc : Option String × List Pattern)
    (node : PyNode) : Option String × List Pattern :=
  match node with
  | .classDef name body =>
      -- class_scope := some name; append records; trailing `if` resets it
      (none, acc.2 ++ (classPattern file_path name :: methodPatterns file_path name body))
  | .functionDef name decorators _ =>
      -- `elif isinstance(node, ast.FunctionDef) and not class_scope`
      if acc.1 = none then (acc.1, acc.2 ++ [functionPattern file_path name decorators])
      else (acc.1, acc.2)
  | _ => (acc.1, acc.2)

/-- The body of the outer `for file_path, tree_info in ast_trees.items()` loop
for one file: walk the tree with `class_scope` starting at `None` and collect
records. -/
def analyzeFile (file_path : String) (tree : PyNode) : List Pattern :=
  ((walk tree).foldl (analyzeStep file_path) (none, [])).2

/-- Embeds `tree_info`: the per-file dict in the `ast_trees` argument.  A well-formed
entry has an `'ast'` key; `ast := none` models an entry lacking it, where the
subscript `tree_info['ast']` raises a `KeyError`. -/
structure TreeInfo where
  ast : Option PyNode

/-- Embeds `PatternRecognizer.analyze`.  The `ast_trees` dict is an association list
iterated in insertion order.  There is no try/except in `analyze`: the
`KeyError` from a malformed entry propagates as a raw exception. -/
def analyze (ast_trees : List (String × TreeInfo)) : Except PyErr (List Pattern) :=
  ast_trees.foldlM
    (fun patterns entry =>
      match entry.2.ast with
      | none => .error (.raw "KeyError: ast")
      | some tree => .ok (patterns ++ analyzeFile entry.1 tree))
    []

/-- The tokenizer: maps a code string to its token ids, or raises.  The
`truncation=True, max_length=512` arguments are applied on top of it by
`getEmbeddings`. -/
def Tokenizer : Type := String → Except String (List Nat)

/-- The embedding model: maps (truncated) token ids to the vector
`outputs.last_hidden_state[:, 0, :][0]`, or raises. -/
def EmbeddingModel : Type := List Nat → Except String (List Int)

/-- The state a constructed `PatternRecognizer` holds: `self.embedding_model`
and `self.tokenizer`. -/
structure Recognizer where
  embedding_model : EmbeddingModel
  tokenizer : Tokenizer

/-- Embeds `PatternRecognizer._initialize_embedding_model`: loads model then tokenizer
inside one try/except; any failure is re-raised as
`PatternAnalysisError("Model initialization failed: " + msg)`. -/
def initializeEmbeddingModel (loadModel : Except String EmbeddingModel)
    (loadTokenizer : Except String Tokenizer) : Except PyErr Recognizer :=
  match loadModel with
  | .error e => .error (.patternAnalysisError ("Model initialization failed: " ++ e))
  | .ok m =>
    match loadTokenizer with
    | .error e => .error (.patternAnalysisError ("Model initialization failed: " ++ e))
    | .ok t => .ok ⟨m, t⟩

/-- Embeds `PatternRecognizer.__init__`.  When a model instance is supplied, the code
stores it and loads the tokenizer with `AutoTokenizer.from_pretrained` — a call
made outside any try/except, so its exception propagates raw.  Otherwise it
delegates to `_initialize_embedding_model`. -/
def patternRecognizerInit (model : Option EmbeddingModel)
    (loadModel : Except String EmbeddingModel)
    (loadTokenizer : Except String Tokenizer) : Except PyErr Recognizer :=
  match model with
  | some m =>
    match loadTokenizer with
    | .error e => .error (.raw e)
    | .ok t => .ok ⟨m, t⟩
  | none => initializeEmbeddingModel loadModel loadTokenizer

/-- The `for code in code_blocks` loop body of `_get_embeddings`: tokenize with
truncation to `max_length=512`, run the model, append; the first exception
aborts the loop. -/
def embedLoop (r : Recognizer) : List String → Except String (List (List Int))
  | [] => .ok []
  | code :: rest => do
    let toks ← r.tokenizer code
    let v ← r.embedding_model (toks.take 512)
    let vs ← embedLoop r rest
    pure (v :: vs)

/-- Embeds `PatternRecognizer._get_embeddings`: the loop above wrapped in try/except,
re-raising any failure as
`PatternAnalysisError("Failed to generate embeddings: " + msg)`. -/
def getEmbeddings (r : Recognizer) (code_blocks : List String) :
    Except PyErr (List (List Int)) :=
  match embedLoop r code_blocks with
  | .ok es => .ok es
  | .error e => .error (.patternAnalysisError ("Failed to generate embeddings: " ++ e))

/-- Embeds `PatternRecognizer._cluster_patterns`: the call `DBSCAN(eps=0.3,
min_samples=2).fit_predict` is the oracle `dbscan`; a failure is re-raised as
`PatternAnalysisError("Failed to cluster patterns: " + msg)`. -/
def clusterPatterns (dbscan : List (List Int) → Except String (List Int))
    (embeddings : List (List Int)) : Except PyErr (List Int) :=
  match dbscan embeddings with
  | .ok clusters => .ok clusters
  | .error e => .error (.patternAnalysisError ("Failed to cluster patterns: " ++ e))

/-- Whether `a` starts the character list `s`. -/
def leadsChars : List Char → List Char → Bool
  | [], _ => true
  | _ :: _, [] => false
  | a :: as, b :: bs => a = b && leadsChars as bs

/-- Substring containment on character lists. -/
def containsChars (sub : List Char) : List Char → Bool
  | [] => sub.isEmpty
  | c :: cs => leadsChars sub (c :: cs) || containsChars sub cs

/-- Python's `sub in s` on strings: substring containment. -/
def strContains (s sub : String) : Bool := containsChars sub.toList s.toList

/-- Embeds `str.lower()`: lowercase every character. -/
def pyLower (s : String) : String := ⟨s.data.map Char.toLower⟩

/-- Embeds `PatternRecognizer._identify_pattern_type`: keyword scan over
`' '.join(code_group).lower()` in fixed precedence order. -/
def identifyPatternType (code_group : List String) : String :=
  let combined_code := pyLower (String.intercalate " " code_group)
  if strContains combined_code "class" then "class_definition"
  else if strContains combined_code "def" then "function_definition"
  else if strContains combined_code "import" then "import_pattern"
  else if strContains combined_code "try" && strContains combined_code "except" then
    "error_handling"
  else if strContains combined_code "for" || strContains combined_code "while" then
    "loop_pattern"
  else "general_code_pattern"

/-- A cluster summary dict built by `_analyze_clusters`. -/
structure ClusterSummary where
  cluster_id : Int
  frequency : Nat
  examples : List String
  pattern_type : String
  deriving DecidableEq, Repr

/-- Embeds `pattern_groups[cluster_id].append(code_block)` on the insertion-ordered
dict, embedded as an association list: append to the entry with this key, or
add a new entry at the end. -/
def addToGroups : List (Int × List String) → Int → String → List (Int × List String)
  | [], c, s => [(c, [s])]
  | (k, xs) :: rest, c, s =>
    if k = c then (k, xs ++ [s]) :: rest else (k, xs) :: addToGroups rest c s

/-- The first, grouping loop of `_analyze_clusters` over
`enumerate(clusters)` zipped with `code_blocks`: noise points (`cluster_id ==
-1`) are skipped, the rest are appended to their cluster's group. -/
def buildGroups (pairs : List (Int × String)) : List (Int × List String) :=
  pairs.foldl
    (fun groups p => if p.1 = -1 then groups else addToGroups groups p.1 p.2) []

/-- Embeds `PatternRecognizer._analyze_clusters`: group the code blocks by cluster id
(dropping noise), then summarize each group with its size, first 3 examples
and heuristic label. -/
def analyzeClusters (clusters : List Int) (code_blocks : List String) :
    List ClusterSummary :=
  let pattern_groups := buildGroups (clusters.zip code_blocks)
  pattern_groups.map fun g =>
    { cluster_id := g.1, frequency := g.2.length, examples := g.2.take 3,
      pattern_type := identifyPatternType g.2 }

/-! Verification-side helper definitions. -/

/-- The records one iteration of the `analyze` walk loop appends when
`class_scope` is `None` (which, see `analyzeStep_none_eq`, it always is). -/
def emitPatterns (file_path : String) (node : PyNode) : List Pattern :=
  (analyzeStep file_path (none, []) node).2

/-- The records `analyze` collects for one `ast_trees` entry (empty for a
malformed entry, which in fact raises). -/
def filePatterns (entry : String × TreeInfo) : List Pattern :=
  match entry.2.ast with
  | some tree => analyzeFile entry.1 tree
  | none => []

/-- Dict lookup on the association list embedding `pattern_groups`
(the group of a key absent from the dict is `[]`). -/
def findGroup : List (Int × List String) → Int → List String
  | [], _ => []
  | (k, xs) :: rest, c => if k = c then xs else findGroup rest c

/-- Whether a result is a raised `PatternAnalysisError`. -/
def isPatternAnalysisFailure {α : Type} : Except PyErr α → Bool
  | .error (.patternAnalysisError _) => true
  | _ => false

/-- The spec's example input: one file containing class `Foo` with method
`bar`, followed by a top-level function `baz` carrying one decorator. -/
def fooTree : PyNode :=
  .module [.classDef "Foo" [.functionDef "bar" [] []],
           .functionDef "baz" ["app.route"] []]

/-- Concrete witness data: the summary `_analyze_clusters` builds for cluster
0 of the label array `[0, -1, 0, 1, 1, 0, 0]` over fragments `a`..`g`. -/
def summaryA : ClusterSummary :=
  { cluster_id := 0, frequency := 4, examples := ["a", "c", "f"],
    pattern_type := "general_code_pattern" }

/-- Concrete witness data: the summary `_analyze_clusters` builds for cluster
5 of the label array `[5, -1, 5]` over fragments `u`, `v`, `w`. -/
def summaryB : ClusterSummary :=
  { cluster_id := 5, frequency := 2, examples := ["u", "w"],
    pattern_type := "general_code_pattern" }

/-! Helper lemmas about the walk. -/

theorem walkAux_nil : walkAux [] = [] := by rw [walkAux.eq_def]

theorem walkAux_cons (n : PyNode) (rest : List PyNode) :
    walkAux (n :: rest) = n :: walkAux (rest ++ n.children) := by
  rw [walkAux.eq_def]

/-- Breadth-first traversal yields the whole queue first (then descendants). -/
theorem walkAux_eq_append (q : List PyNode) : ∃ r, walkAux q = q ++ r := by
  induction q using walkAux.induct with
  | case1 => exact ⟨[], by simp [walkAux_nil]⟩
  | case2 n rest ih =>
    obtain ⟨r, hr⟩ := ih
    exact ⟨n.children ++ r, by simp [walkAux_cons, hr]⟩

theorem mem_walkAux {n : PyNode} {q : List PyNode} (h : n ∈ q) : n ∈ walkAux q := by
  obtain ⟨r, hr⟩ := walkAux_eq_append q
  rw [hr]
  exact List.mem_append_left _ h

theorem self_mem_walk (tree : PyNode) : tree ∈ walk tree :=
  mem_walkAux (List.mem_singleton.mpr rfl)

/-- Every direct child of a module is among its walked nodes. -/
theorem mem_walk_of_mem_body {x : PyNode} {b : List PyNode} (h : x ∈ b) :
    x ∈ walk (.module b) := by
  rw [walk, walkAux_cons]
  exact List.mem_cons_of_mem _ (mem_walkAux (by simpa [PyNode.children] using h))

/-! Helper lemmas about `analyze`'s record emission. -/

theorem emitPatterns_classDef (fp name : String) (body : List PyNode) :
    emitPatterns fp (.classDef name body) =
      classPattern fp name :: methodPatterns fp name body := rfl

theorem emitPatterns_functionDef (fp name : String) (decorators : List String)
    (body : List PyNode) :
    emitPatterns fp (.functionDef name decorators body) =
      [functionPattern fp name decorators] := rfl

theorem emitPatterns_module (fp : String) (body : List PyNode) :
    emitPatterns fp (.module body) = [] := rfl

theorem emitPatterns_other (fp : String) : emitPatterns fp .other = [] := rfl

/-- With `class_scope = None` an iteration leaves it `None` and appends the
node's records: the trailing reset inside the `ClassDef` branch means the
scope is dead state. -/
theorem analyzeStep_none_eq (fp : String) (ps : List Pattern) (node : PyNode) :
    analyzeStep fp (none, ps) node = (none, ps ++ emitPatterns fp node) := by
  cases node <;> simp [analyzeStep, emitPatterns]

theorem foldl_analyzeStep (fp : String) (l : List PyNode) (ps : List Pattern) :
    l.foldl (analyzeStep fp) (none, ps) =
      (none, ps ++ l.flatMap (emitPatterns fp)) := by
  induction l generalizing ps with
  | nil => simp
  | cons n rest ih => simp [analyzeStep_none_eq, ih]

/-- Lemma: `analyzeFile` is the concatenation of the per-node emissions over the
breadth-first walk. -/
theorem analyzeFile_eq_flatMap (fp : String) (tree : PyNode) :
    analyzeFile fp tree = (walk tree).flatMap (emitPatterns fp) := by
  simp [analyzeFile, foldl_analyzeStep]

theorem mem_methodPatterns {r : Pattern} {fp cls : String} {body : List PyNode}
    (h : r ∈ methodPatterns fp cls body) :
    ∃ nm ds bs, PyNode.functionDef nm ds bs ∈ body ∧ r = methodPattern fp cls nm := by
  obtain ⟨item, hitem, hsome⟩ := List.mem_filterMap.mp h
  cases item with
  | functionDef nm ds bs =>
    exact ⟨nm, ds, bs, hitem, by cases hsome; rfl⟩
  | module b => simp at hsome
  | classDef n b => simp at hsome
  | other => simp at hsome

theorem frequency_of_mem_emitPatterns {r : Pattern} {fp : String} {node : PyNode}
    (h : r ∈ emitPatterns fp node) : r.frequency = 1 := by
  cases node with
  | module b => simp [emitPatterns_module] at h
  | other => simp [emitPatterns_other] at h
  | classDef name body =>
    rw [emitPatterns_classDef] at h
    rcases List.mem_cons.mp h with h | h
    · simp [h, classPattern]
    · obtain ⟨nm, ds, bs, _, hr⟩ := mem_methodPatterns h
      simp [hr, methodPattern]
  | functionDef name ds body =>
    rw [emitPatterns_functionDef] at h
    rcases List.mem_singleton.mp h with rfl
    by_cases hd : ds.isEmpty <;> simp [functionPattern, hd]

/-! Helper lemmas about `analyze` over the file dict. -/

theorem except_ok_bind {ε α β : Type} (a : α) (f : α → Except ε β) :
    (Except.ok a >>= f : Except ε β) = f a := rfl

theorem except_error_bind {ε α β : Type} (e : ε) (f : α → Except ε β) :
    (Except.error e >>= f : Except ε β) = Except.error e := rfl

theorem except_pure_eq_ok {ε α : Type} (a : α) :
    (pure a : Except ε α) = Except.ok a := rfl

theorem analyze_foldlM_ok {ts : List (String × TreeInfo)}
    (h : ∀ e ∈ ts, e.2.ast ≠ none) (acc : List Pattern) :
    (ts.foldlM
      (fun patterns entry =>
        match entry.2.ast with
        | none => (.error (.raw "KeyError: ast") : Except PyErr (List Pattern))
        | some tree => .ok (patterns ++ analyzeFile entry.1 tree))
      acc) = .ok (acc ++ ts.flatMap filePatterns) := by
  induction ts generalizing acc with
  | nil => simp [except_pure_eq_ok]
  | cons e rest ih =>
    have he := h e (List.mem_cons_self e rest)
    cases hast : e.2.ast with
    | none => exact absurd hast he
    | some tree =>
      have hrest : ∀ x ∈ rest, x.2.ast ≠ none := fun x hx => h x (List.mem_cons_of_mem _ hx)
      simp only [List.foldlM_cons, hast, except_ok_bind]
      rw [ih hrest]
      simp [filePatterns, hast]

theorem analyze_ok {ts : List (String × TreeInfo)} (h : ∀ e ∈ ts, e.2.ast ≠ none) :
    analyze ts = .ok (ts.flatMap filePatterns) := by
  have := analyze_foldlM_ok h []
  simpa [analyze] using this

theorem analyze_foldlM_keyError {ts : List (String × TreeInfo)}
    (h : ∃ e ∈ ts, e.2.ast = none) (acc : List Pattern) :
    (ts.foldlM
      (fun patterns entry =>
        match entry.2.ast with
        | none => (.error (.raw "KeyError: ast") : Except PyErr (List Pattern))
        | some tree => .ok (patterns ++ analyzeFile entry.1 tree))
      acc) = .error (.raw "KeyError: ast") := by
  induction ts generalizing acc with
  | nil => simp at h
  | cons e rest ih =>
    cases hast : e.2.ast with
    | none => simp [List.foldlM_cons, hast, except_error_bind]
    | some tree =>
      obtain ⟨x, hx, hnone⟩ := h
      rcases List.mem_cons.mp hx with rfl | hx'
      · exact absurd hast (by simp [hnone])
      · simp only [List.foldlM_cons, hast, except_ok_bind]
        exact ih ⟨x, hx', hnone⟩ _

theorem analyze_keyError {ts : List (String × TreeInfo)}
    (h : ∃ e ∈ ts, e.2.ast = none) :
    analyze ts = .error (.raw "KeyError: ast") :=
  analyze_foldlM_keyError h []

/-! Concrete evaluation of `analyze` on the spec's example tree. -/

theorem walk_fooTree : walk fooTree =
    [fooTree, .classDef "Foo" [.functionDef "bar" [] []],
     .functionDef "baz" ["app.route"] [], .functionDef "bar" [] []] := by
  simp [walk, fooTree, walkAux_cons, walkAux_nil, PyNode.children]

theorem analyzeFile_fooTree : analyzeFile "test.py" fooTree =
    [classPattern "test.py" "Foo",
     methodPattern "test.py" "Foo" "bar",
     functionPattern "test.py" "baz" ["app.route"],
     functionPattern "test.py" "bar" []] := by
  rw [analyzeFile, walk_fooTree]
  decide

theorem analyze_ok_inv {ts : List (String × TreeInfo)} {ps : List Pattern}
    (h : analyze ts = .ok ps) :
    ps = ts.flatMap filePatterns ∧ ∀ e ∈ ts, e.2.ast ≠ none := by
  by_cases hall : ∀ e ∈ ts, e.2.ast ≠ none
  · refine ⟨?_, hall⟩
    rw [analyze_ok hall] at h
    exact (Except.ok.injEq _ _).mp h.symm
  · push_neg at hall
    obtain ⟨e, he, hnone⟩ := hall
    rw [analyze_keyError ⟨e, he, hnone⟩] at h
    cases h

/-! Helper lemmas about the `pattern_groups` dict of `_analyze_clusters`. -/

theorem findGroup_addToGroups_self (groups : List (Int × List String)) (c : Int)
    (s : String) :
    findGroup (addToGroups groups c s) c = findGroup groups c ++ [s] := by
  induction groups with
  | nil => simp [addToGroups, findGroup]
  | cons kxs rest ih =>
    obtain ⟨k, xs⟩ := kxs
    by_cases hkc : k = c
    · subst hkc
      simp [addToGroups, findGroup]
    · simp [addToGroups, findGroup, hkc, ih]

theorem findGroup_addToGroups_ne (groups : List (Int × List String)) {c c' : Int}
    (h : c' ≠ c) (s : String) :
    findGroup (addToGroups groups c s) c' = findGroup groups c' := by
  induction groups with
  | nil => simp [addToGroups, findGroup, Ne.symm h]
  | cons kxs rest ih =>
    obtain ⟨k, xs⟩ := kxs
    by_cases hkc : k = c
    · subst hkc
      simp [addToGroups, findGroup, Ne.symm h]
    · by_cases hk : k = c'
      · subst hk
        simp [addToGroups, findGroup, hkc]
      · simp [addToGroups, findGroup, hkc, hk, ih]

theorem mem_addToGroups {cg : Int × List String} {groups : List (Int × List String)}
    {c : Int} {s : String} (h : cg ∈ addToGroups groups c s) :
    cg.1 = c ∨ ∃ g₀, (cg.1, g₀) ∈ groups := by
  induction groups with
  | nil =>
    left
    rw [show addToGroups [] c s = [(c, [s])] from rfl] at h
    rw [List.mem_singleton.mp h]
  | cons kxs rest ih =>
    obtain ⟨k, xs⟩ := kxs
    by_cases hkc : k = c
    · subst hkc
      rw [show addToGroups ((k, xs) :: rest) k s = (k, xs ++ [s]) :: rest
          from by simp [addToGroups]] at h
      rcases List.mem_cons.mp h with rfl | hmem
      · left; rfl
      · right
        exact ⟨cg.2, List.mem_cons_of_mem _ (by rw [Prod.mk.eta]; exact hmem)⟩
    · rw [show addToGroups ((k, xs) :: rest) c s = (k, xs) :: addToGroups rest c s
          from by simp [addToGroups, hkc]] at h
      rcases List.mem_cons.mp h with rfl | hmem
      · right; exact ⟨xs, List.mem_cons_self _ _⟩
      · rcases ih hmem with h1 | ⟨g₀, hg₀⟩
        · left; exact h1
        · right; exact ⟨g₀, List.mem_cons_of_mem _ hg₀⟩

theorem keys_addToGroups (groups : List (Int × List String)) (c : Int) (s : String) :
    (addToGroups groups c s).map Prod.fst =
      if c ∈ groups.map Prod.fst then groups.map Prod.fst
      else groups.map Prod.fst ++ [c] := by
  induction groups with
  | nil => simp [addToGroups]
  | cons kxs rest ih =>
    obtain ⟨k, xs⟩ := kxs
    by_cases hkc : k = c
    · subst hkc
      simp [addToGroups]
    · have hck : ¬ c = k := fun hc => hkc hc.symm
      simp only [addToGroups, if_neg hkc, List.map_cons, ih, List.mem_cons]
      by_cases hc : c ∈ rest.map Prod.fst
      · simp [hc, hck]
      · simp [hc, hck]

theorem nodup_keys_addToGroups {groups : List (Int × List String)}
    (h : (groups.map Prod.fst).Nodup) (c : Int) (s : String) :
    ((addToGroups groups c s).map Prod.fst).Nodup := by
  rw [keys_addToGroups]
  by_cases hc : c ∈ groups.map Prod.fst
  · simpa [hc] using h
  · simp only [if_neg hc]
    exact List.Nodup.append h (List.nodup_singleton c) (by simpa using hc)

theorem findGroup_of_mem {groups : List (Int × List String)} {c : Int}
    {g : List String} (hnd : (groups.map Prod.fst).Nodup) (h : (c, g) ∈ groups) :
    findGroup groups c = g := by
  induction groups with
  | nil => simp at h
  | cons kxs rest ih =>
    obtain ⟨k, xs⟩ := kxs
    rw [List.map_cons] at hnd
    have hnd' := List.nodup_cons.mp hnd
    rcases List.mem_cons.mp h with heq | hmem
    · cases heq; simp [findGroup]
    · have hk : k ≠ c := by
        intro hkc
        subst hkc
        exact hnd'.1 (List.mem_map.mpr ⟨(k, g), hmem, rfl⟩)
      simp only [findGroup, if_neg hk]
      exact ih hnd'.2 hmem

theorem buildGroups_foldl_keys_ne {pairs : List (Int × String)}
    {acc : List (Int × List String)} (hacc : ∀ cg ∈ acc, cg.1 ≠ -1) :
    ∀ cg ∈ pairs.foldl
      (fun groups p => if p.1 = -1 then groups else addToGroups groups p.1 p.2) acc,
      cg.1 ≠ -1 := by
  induction pairs generalizing acc with
  | nil => simpa using hacc
  | cons p rest ih =>
    rw [List.foldl_cons]
    by_cases hp : p.1 = -1
    · rw [if_pos hp]
      exact ih hacc
    · rw [if_neg hp]
      refine ih fun cg hcg => ?_
      rcases mem_addToGroups hcg with h1 | ⟨g₀, hg₀⟩
      · rw [h1]; exact hp
      · exact hacc (cg.1, g₀) hg₀

theorem buildGroups_foldl_nodup {pairs : List (Int × String)}
    {acc : List (Int × List String)} (hacc : (acc.map Prod.fst).Nodup) :
    ((pairs.foldl
      (fun groups p => if p.1 = -1 then groups else addToGroups groups p.1 p.2)
      acc).map Prod.fst).Nodup := by
  induction pairs generalizing acc with
  | nil => simpa using hacc
  | cons p rest ih =>
    rw [List.foldl_cons]
    by_cases hp : p.1 = -1
    · rw [if_pos hp]; exact ih hacc
    · rw [if_neg hp]; exact ih (nodup_keys_addToGroups hacc p.1 p.2)

theorem buildGroups_foldl_findGroup {pairs : List (Int × String)}
    {acc : List (Int × List String)} {c : Int} (hc : c ≠ -1) :
    findGroup
      (pairs.foldl
        (fun groups p => if p.1 = -1 then groups else addToGroups groups p.1 p.2) acc)
      c =
      findGroup acc c ++ (pairs.filter (fun p => p.1 = c)).map Prod.snd := by
  induction pairs generalizing acc with
  | nil => simp
  | cons p rest ih =>
    rw [List.foldl_cons]
    by_cases hp : p.1 = -1
    · have hpc : ¬ (p.1 = c) := fun h => hc (h ▸ hp)
      rw [if_pos hp, ih]
      simp [List.filter_cons, hpc]
    · rw [if_neg hp, ih]
      by_cases hpc : p.1 = c
      · subst hpc
        rw [findGroup_addToGroups_self]
        simp [List.filter_cons]
      · have hcp : c ≠ p.1 := fun h => hpc h.symm
        rw [findGroup_addToGroups_ne _ hcp]
        simp [List.filter_cons, hpc]

/-- Characterization of `_analyze_clusters`' grouping pass: every group in the
dict has a non-noise key, and its fragment list is exactly the code blocks of
that cluster, in their original order. -/
theorem mem_buildGroups {pairs : List (Int × String)} {cg : Int × List String}
    (h : cg ∈ buildGroups pairs) :
    cg.1 ≠ -1 ∧ cg.2 = (pairs.filter (fun p => p.1 = cg.1)).map Prod.snd := by
  have hne : cg.1 ≠ -1 := buildGroups_foldl_keys_ne (by simp) cg h
  have hnd : ((buildGroups pairs).map Prod.fst).Nodup :=
    buildGroups_foldl_nodup (by simp)
  have hfind : findGroup (buildGroups pairs) cg.1 = cg.2 :=
    findGroup_of_mem hnd (by rw [Prod.mk.eta]; exact h)
  refine ⟨hne, ?_⟩
  rw [← hfind, buildGroups, buildGroups_foldl_findGroup hne]
  simp [findGroup]

/-! Helper lemmas about `_get_embeddings`. -/

theorem getEmbeddings_ok_iff (r : Recognizer) (blocks : List String)
    (vs : List (List Int)) :
    getEmbeddings r blocks = .ok vs ↔ embedLoop r blocks = .ok vs := by
  rw [getEmbeddings]
  cases h : embedLoop r blocks <;> simp

theorem embedLoop_ok_spec {r : Recognizer} {blocks : List String}
    {vs : List (List Int)} (h : embedLoop r blocks = .ok vs) :
    vs.length = blocks.length ∧
    ∀ i code, blocks.get? i = some code →
      ∃ toks v, vs.get? i = some v ∧ r.tokenizer code = .ok toks ∧
        r.embedding_model (toks.take 512) = .ok v := by
  induction blocks generalizing vs with
  | nil =>
    rw [show embedLoop r [] = .ok [] from rfl] at h
    cases h
    exact ⟨rfl, fun i code hc => by simp at hc⟩
  | cons code rest ih =>
    rw [show embedLoop r (code :: rest) =
        (r.tokenizer code >>= fun toks =>
          r.embedding_model (toks.take 512) >>= fun v =>
          embedLoop r rest >>= fun vs => pure (v :: vs)) from rfl] at h
    cases htok : r.tokenizer code with
    | error e => rw [htok, except_error_bind] at h; cases h
    | ok toks =>
      rw [htok, except_ok_bind] at h
      cases hemb : r.embedding_model (toks.take 512) with
      | error e => rw [hemb, except_error_bind] at h; cases h
      | ok v =>
        rw [hemb, except_ok_bind] at h
        cases hrest : embedLoop r rest with
        | error e => rw [hrest, except_error_bind] at h; cases h
        | ok vs' =>
          rw [hrest, except_ok_bind, except_pure_eq_ok] at h
          cases h
          obtain ⟨hlen, hspec⟩ := ih hrest
          refine ⟨by simp [hlen], fun i c hc => ?_⟩
          cases i with
          | zero =>
            rw [List.get?_cons_zero] at hc
            cases hc
            exact ⟨toks, v, rfl, htok, hemb⟩
          | succ j =>
            rw [List.get?_cons_succ] at hc
            obtain ⟨toks', v', hv', ht', he'⟩ := hspec j c hc
            exact ⟨toks', v', by simpa using hv', ht', he'⟩

/-! Field lemmas for the function-branch record. -/

theorem functionPattern_fields (fp n : String) (ds : List String) :
    (functionPattern fp n ds).name = n ∧ (functionPattern fp n ds).file = fp ∧
    (functionPattern fp n ds).dataName = n ∧
    (functionPattern fp n ds).frequency = 1 := by
  by_cases h : ds.isEmpty <;> simp [functionPattern, h]

theorem functionPattern_type_of_decorated {ds : List String} (h : ds ≠ [])
    (fp n : String) :
    (functionPattern fp n ds).type = "decorator" ∧
    (functionPattern fp n ds).pattern_type = "decorator" := by
  have : ds.isEmpty = false := by
    cases ds with
    | nil => exact absurd rfl h
    | cons a as => rfl
  simp [functionPattern, this]

theorem functionPattern_type_of_plain (fp n : String) :
    (functionPattern fp n []).type = "function_definition" ∧
    (functionPattern fp n []).pattern_type = "function" := by
  simp [functionPattern]

theorem functionPattern_type_ne_method (fp n : String) (ds : List String) :
    (functionPattern fp n ds).type ≠ "method_definition" := by
  by_cases h : ds.isEmpty <;> simp [functionPattern, h]

/-! Claim theorems. -/

/-- C1: the claim states that each function defined directly in a class body
yields exactly one record (a method_definition) and that the Foo/bar/baz
example yields exactly the three records class_definition(Foo),
method_definition(bar, class=Foo), decorator(baz).  The code violates this:
because the `ClassDef` branch resets `class_scope` in the same loop iteration
that set it (the reset meant for "exiting" the class runs immediately),
`ast.walk`'s later visit to the method node `bar` is treated as a
module-level function, and `analyze` returns a fourth record
`function_definition(bar)` in addition to the three claimed ones. -/
theorem C1_failing_input_four_records :
    analyze [("test.py", ⟨some fooTree⟩)] =
      .ok [classPattern "test.py" "Foo",
           methodPattern "test.py" "Foo" "bar",
           functionPattern "test.py" "baz" ["app.route"],
           functionPattern "test.py" "bar" []] ∧
    (functionPattern "test.py" "bar" []).type = "function_definition" ∧
    (functionPattern "test.py" "bar" []).name = "bar" ∧
    (List.filter (fun r => r.name = "bar")
      [classPattern "test.py" "Foo",
       methodPattern "test.py" "Foo" "bar",
       functionPattern "test.py" "baz" ["app.route"],
       functionPattern "test.py" "bar" []]).length = 2 := by
  refine ⟨?_, by decide, by decide, by decide⟩
  rw [show analyze [("test.py", ⟨some fooTree⟩)] =
      .ok ([] ++ analyzeFile "test.py" fooTree) from rfl, analyzeFile_fooTree]
  rfl

/-- C3: a module-level function appearing after a class definition in the same
file is recorded as a function-level record (function_definition or decorator)
and never as a method_definition; and every method_definition record carries
in `data` the name of a class whose body directly contains a function of that
name. -/
theorem C3_no_method_misattribution (fp cname fname : String)
    (pre mid post cbody fbody : List PyNode) (decs : List String) :
    (∃ r ∈ analyzeFile fp
        (.module (pre ++ PyNode.classDef cname cbody ::
          (mid ++ PyNode.functionDef fname decs fbody :: post))),
      r.name = fname ∧ (r.type = "function_definition" ∨ r.type = "decorator")) ∧
    (∀ r ∈ analyzeFile fp
        (.module (pre ++ PyNode.classDef cname cbody ::
          (mid ++ PyNode.functionDef fname decs fbody :: post))),
      r.type = "method_definition" →
        ∃ cls body, PyNode.classDef cls body ∈
            walk (.module (pre ++ PyNode.classDef cname cbody ::
              (mid ++ PyNode.functionDef fname decs fbody :: post))) ∧
          r.dataClass = some cls ∧
          ∃ ds bs, PyNode.functionDef r.name ds bs ∈ body) := by
  constructor
  · refine ⟨functionPattern fp fname decs, ?_, (functionPattern_fields fp fname decs).1, ?_⟩
    · rw [analyzeFile_eq_flatMap]
      refine List.mem_flatMap.mpr ⟨PyNode.functionDef fname decs fbody, ?_, ?_⟩
      · exact mem_walk_of_mem_body (by simp)
      · rw [emitPatterns_functionDef]
        exact List.mem_singleton.mpr rfl
    · by_cases h : decs = []
      · subst h; exact Or.inl (functionPattern_type_of_plain fp fname).1
      · exact Or.inr (functionPattern_type_of_decorated h fp fname).1
  · intro r hr hmethod
    rw [analyzeFile_eq_flatMap] at hr
    obtain ⟨node, hnode, hremit⟩ := List.mem_flatMap.mp hr
    cases node with
    | module b => simp [emitPatterns_module] at hremit
    | other => simp [emitPatterns_other] at hremit
    | functionDef nm ds bs =>
      rw [emitPatterns_functionDef] at hremit
      rw [List.mem_singleton.mp hremit] at hmethod
      exact absurd hmethod (functionPattern_type_ne_method fp nm ds)
    | classDef cls body =>
      rw [emitPatterns_classDef] at hremit
      rcases List.mem_cons.mp hremit with rfl | hmem
      · exact absurd hmethod (by simp [classPattern])
      · obtain ⟨nm, ds, bs, hin, rfl⟩ := mem_methodPatterns hmem
        exact ⟨cls, body, hnode, rfl, ds, bs, hin⟩

/-- C3 witness: the Foo/bar/baz example tree instantiates the statement. -/
theorem C3_witness :
    (∃ r ∈ analyzeFile "test.py" fooTree,
      r.name = "baz" ∧ (r.type = "function_definition" ∨ r.type = "decorator")) ∧
    (∀ r ∈ analyzeFile "test.py" fooTree, r.type = "method_definition" →
      ∃ cls body, PyNode.classDef cls body ∈ walk fooTree ∧
        r.dataClass = some cls ∧ ∃ ds bs, PyNode.functionDef r.name ds bs ∈ body) :=
  C3_no_method_misattribution "test.py" "Foo" "baz" [] [] []
    [.functionDef "bar" [] []] [] ["app.route"]

/-- C4: a module-level function definition is recorded with type and
pattern_type "decorator" exactly when its decorator list is non-empty, and as
a "function_definition" with pattern_type "function" when it is empty. -/
theorem C4_decorator_iff_decorated (fp fname : String)
    (pre post fbody : List PyNode) (decs : List String) :
    ∃ r ∈ analyzeFile fp (.module (pre ++ PyNode.functionDef fname decs fbody :: post)),
      r.name = fname ∧ r.file = fp ∧ r.dataName = fname ∧
      ((r.type = "decorator" ∧ r.pattern_type = "decorator") ↔ decs ≠ []) ∧
      ((r.type = "function_definition" ∧ r.pattern_type = "function") ↔ decs = []) := by
  obtain ⟨hname, hfile, hdata, _⟩ := functionPattern_fields fp fname decs
  refine ⟨functionPattern fp fname decs, ?_, hname, hfile, hdata, ?_, ?_⟩
  · rw [analyzeFile_eq_flatMap]
    refine List.mem_flatMap.mpr ⟨PyNode.functionDef fname decs fbody, ?_, ?_⟩
    · exact mem_walk_of_mem_body (by simp)
    · rw [emitPatterns_functionDef]
      exact List.mem_singleton.mpr rfl
  · constructor
    · intro ⟨ht, _⟩ hnil
      subst hnil
      exact absurd ht (by simp [functionPattern])
    · exact fun h => functionPattern_type_of_decorated h fp fname
  · constructor
    · intro ⟨ht, _⟩
      by_cases h : decs = []
      · exact h
      · exact absurd ht (by simp [(functionPattern_type_of_decorated h fp fname).1])
    · intro h
      subst h
      exact functionPattern_type_of_plain fp fname

/-- C4 witness: the decorated function `baz` of the example tree. -/
theorem C4_witness :
    ∃ r ∈ analyzeFile "test.py" fooTree,
      r.name = "baz" ∧ r.file = "test.py" ∧ r.dataName = "baz" ∧
      ((r.type = "decorator" ∧ r.pattern_type = "decorator") ↔
        ["app.route"] ≠ ([] : List String)) ∧
      ((r.type = "function_definition" ∧ r.pattern_type = "function") ↔
        ["app.route"] = ([] : List String)) :=
  C4_decorator_iff_decorated "test.py" "baz"
    [.classDef "Foo" [.functionDef "bar" [] []]] [] [] ["app.route"]

/-- C9: structural extraction never raises a PatternAnalysisError; on a
malformed entry (one whose tree record lacks the parsed tree) the underlying
KeyError propagates to the caller unmodified. -/
theorem C9_analyze_never_wraps (ts : List (String × TreeInfo)) :
    (∀ m, analyze ts ≠ .error (.patternAnalysisError m)) ∧
    (∀ fp, (fp, TreeInfo.mk none) ∈ ts →
      analyze ts = .error (.raw "KeyError: ast")) := by
  constructor
  · intro m
    by_cases hall : ∀ e ∈ ts, e.2.ast ≠ none
    · rw [analyze_ok hall]
      simp
    · push_neg at hall
      obtain ⟨e, he, hnone⟩ := hall
      rw [analyze_keyError ⟨e, he, hnone⟩]
      simp
  · intro fp hmem
    exact analyze_keyError ⟨(fp, TreeInfo.mk none), hmem, rfl⟩

/-- C9 witness: on the one-entry dict whose record lacks the tree, `analyze`
raises the raw KeyError. -/
theorem C9_witness :
    analyze [("file.py", TreeInfo.mk none)] = .error (.raw "KeyError: ast") :=
  (C9_analyze_never_wraps [("file.py", TreeInfo.mk none)]).2 "file.py"
    (List.mem_singleton.mpr rfl)

/-- C10: every record `analyze` returns has frequency 1, for every input;
no aggregation of counts is performed. -/
theorem C10_frequency_one (ts : List (String × TreeInfo)) (ps : List Pattern)
    (r : Pattern) (h : analyze ts = .ok ps) (hr : r ∈ ps) : r.frequency = 1 := by
  obtain ⟨hps, -⟩ := analyze_ok_inv h
  subst hps
  obtain ⟨e, -, hre⟩ := List.mem_flatMap.mp hr
  cases hast : e.2.ast with
  | none =>
    rw [show filePatterns e = [] from by simp [filePatterns, hast]] at hre
    simp at hre
  | some tree =>
    rw [show filePatterns e = analyzeFile e.1 tree from by simp [filePatterns, hast],
        analyzeFile_eq_flatMap] at hre
    obtain ⟨node, -, hremit⟩ := List.mem_flatMap.mp hre
    exact frequency_of_mem_emitPatterns hremit

/-- C2 counterexample: the claim says no raw library exception escapes from
construction, including the branch where a model instance is supplied and the
tokenizer is loaded.  But that branch performs the tokenizer load outside any
try/except: with a supplied model and a failing tokenizer load, construction
raises the raw exception, not a PatternAnalysisError. -/
theorem C2_counterexample_raw_escape :
    patternRecognizerInit (some (fun _ => .ok [])) (.ok (fun _ => .ok []))
        (.error "tokenizer load failed") = .error (.raw "tokenizer load failed") ∧
    isPatternAnalysisFailure
      (patternRecognizerInit (some (fun _ => .ok [])) (.ok (fun _ => .ok []))
        (.error "tokenizer load failed")) = false :=
  ⟨rfl, rfl⟩

/-- C2 amended: failures of model initialization (the no-model branch),
embedding generation and clustering are raised as a PatternAnalysisError whose
message carries the original failure's message; but in the branch where a
model instance is supplied, a tokenizer-load failure escapes construction as
the raw exception, unwrapped. -/
theorem C2_wrapping_except_supplied_model_branch :
    (∀ (lm : Except String EmbeddingModel) (lt : Except String Tokenizer)
        (e : PyErr), initializeEmbeddingModel lm lt = .error e →
      ∃ msg, e = .patternAnalysisError ("Model initialization failed: " ++ msg) ∧
        (lm = .error msg ∨ lt = .error msg)) ∧
    (∀ (r : Recognizer) (blocks : List String) (e : PyErr),
        getEmbeddings r blocks = .error e →
      ∃ msg, e = .patternAnalysisError ("Failed to generate embeddings: " ++ msg) ∧
        embedLoop r blocks = .error msg) ∧
    (∀ (dbscan : List (List Int) → Except String (List Int))
        (embeddings : List (List Int)) (e : PyErr),
        clusterPatterns dbscan embeddings = .error e →
      ∃ msg, e = .patternAnalysisError ("Failed to cluster patterns: " ++ msg) ∧
        dbscan embeddings = .error msg) ∧
    (∀ (m : EmbeddingModel) (lm : Except String EmbeddingModel) (msg : String),
      patternRecognizerInit (some m) lm (.error msg) = .error (.raw msg)) := by
  refine ⟨?_, ?_, ?_, ?_⟩
  · intro lm lt e h
    cases lm with
    | error em =>
      rw [show initializeEmbeddingModel (.error em) lt =
          .error (.patternAnalysisError ("Model initialization failed: " ++ em))
          from rfl] at h
      cases h
      exact ⟨em, rfl, Or.inl rfl⟩
    | ok m =>
      cases lt with
      | error et =>
        rw [show initializeEmbeddingModel (.ok m) (.error et) =
            .error (.patternAnalysisError ("Model initialization failed: " ++ et))
            from rfl] at h
        cases h
        exact ⟨et, rfl, Or.inr rfl⟩
      | ok t =>
        rw [show initializeEmbeddingModel (.ok m) (.ok t) = .ok ⟨m, t⟩ from rfl] at h
        cases h
  · intro r blocks e h
    rw [getEmbeddings] at h
    cases hl : embedLoop r blocks with
    | ok es => rw [hl] at h; cases h
    | error msg =>
      rw [hl] at h
      cases h
      exact ⟨msg, rfl, rfl⟩
  · intro dbscan embeddings e h
    rw [clusterPatterns] at h
    cases hd : dbscan embeddings with
    | ok cs => rw [hd] at h; cases h
    | error msg =>
      rw [hd] at h
      cases h
      exact ⟨msg, rfl, rfl⟩
  · intro m lm msg
    rfl

/-- C2 witness: a failing embedding model exercises the wrapping path of
`_get_embeddings`. -/
theorem C2_witness :
    ∃ msg, PyErr.patternAnalysisError "Failed to generate embeddings: CUDA out of memory"
        = .patternAnalysisError ("Failed to generate embeddings: " ++ msg) ∧
      embedLoop ⟨fun _ => .error "CUDA out of memory", fun _ => .ok [1, 2]⟩ ["x = 1"]
        = .error msg :=
  C2_wrapping_except_supplied_model_branch.2.1
    ⟨fun _ => .error "CUDA out of memory", fun _ => .ok [1, 2]⟩ ["x = 1"] _ rfl

/-- C5: `_identify_pattern_type` scans the lowercased space-joined group text
and returns the first matching label in precedence order
class_definition, function_definition, import_pattern, error_handling (try and
except), loop_pattern (for or while), general_code_pattern; in particular a
group containing both "class" and "def" is labeled class_definition. -/
theorem C5_label_precedence (g : List String) :
    (strContains (pyLower (String.intercalate " " g)) "class" = true →
      identifyPatternType g = "class_definition") ∧
    (strContains (pyLower (String.intercalate " " g)) "class" = false →
      strContains (pyLower (String.intercalate " " g)) "def" = true →
      identifyPatternType g = "function_definition") ∧
    (strContains (pyLower (String.intercalate " " g)) "class" = false →
      strContains (pyLower (String.intercalate " " g)) "def" = false →
      strContains (pyLower (String.intercalate " " g)) "import" = true →
      identifyPatternType g = "import_pattern") ∧
    (strContains (pyLower (String.intercalate " " g)) "class" = false →
      strContains (pyLower (String.intercalate " " g)) "def" = false →
      strContains (pyLower (String.intercalate " " g)) "import" = false →
      strContains (pyLower (String.intercalate " " g)) "try" = true →
      strContains (pyLower (String.intercalate " " g)) "except" = true →
      identifyPatternType g = "error_handling") ∧
    (strContains (pyLower (String.intercalate " " g)) "class" = false →
      strContains (pyLower (String.intercalate " " g)) "def" = false →
      strContains (pyLower (String.intercalate " " g)) "import" = false →
      (strContains (pyLower (String.intercalate " " g)) "try" = false ∨
        strContains (pyLower (String.intercalate " " g)) "except" = false) →
      (strContains (pyLower (String.intercalate " " g)) "for" = true ∨
        strContains (pyLower (String.intercalate " " g)) "while" = true) →
      identifyPatternType g = "loop_pattern") ∧
    (strContains (pyLower (String.intercalate " " g)) "class" = false →
      strContains (pyLower (String.intercalate " " g)) "def" = false →
      strContains (pyLower (String.intercalate " " g)) "import" = false →
      (strContains (pyLower (String.intercalate " " g)) "try" = false ∨
        strContains (pyLower (String.intercalate " " g)) "except" = false) →
      strContains (pyLower (String.intercalate " " g)) "for" = false →
      strContains (pyLower (String.intercalate " " g)) "while" = false →
      identifyPatternType g = "general_code_pattern") ∧
    (strContains (pyLower (String.intercalate " " g)) "class" = true →
      strContains (pyLower (String.intercalate " " g)) "def" = true →
      identifyPatternType g = "class_definition") := by
  refine ⟨?_, ?_, ?_, ?_, ?_, ?_, ?_⟩
  · intro h1; simp [identifyPatternType, h1]
  · intro h1 h2; simp [identifyPatternType, h1, h2]
  · intro h1 h2 h3; simp [identifyPatternType, h1, h2, h3]
  · intro h1 h2 h3 h4 h5; simp [identifyPatternType, h1, h2, h3, h4, h5]
  · intro h1 h2 h3 h4 h5
    rcases h5 with h5 | h5 <;> rcases h4 with h4 | h4 <;>
      simp [identifyPatternType, h1, h2, h3, h4, h5]
  · intro h1 h2 h3 h4 h5 h6
    rcases h4 with h4 | h4 <;> simp [identifyPatternType, h1, h2, h3, h4, h5, h6]
  · intro h1 _; simp [identifyPatternType, h1]

/-- C5 witness: a group with both "class" and "def" is labeled
class_definition. -/
theorem C5_witness :
    identifyPatternType ["class Foo:", "def bar():"] = "class_definition" :=
  (C5_label_precedence ["class Foo:", "def bar():"]).2.2.2.2.2.2 (by decide) (by decide)

/-- C6: `_get_embeddings` returns exactly one vector per input fragment, in
input order (the i-th vector is computed from the i-th fragment), each
fragment tokenized with truncation to at most 512 tokens. -/
theorem C6_one_vector_per_fragment_in_order (r : Recognizer)
    (blocks : List String) (vs : List (List Int))
    (h : getEmbeddings r blocks = .ok vs) :
    vs.length = blocks.length ∧
    ∀ i code, blocks.get? i = some code →
      ∃ toks v, vs.get? i = some v ∧ r.tokenizer code = .ok toks ∧
        (toks.take 512).length ≤ 512 ∧
        r.embedding_model (toks.take 512) = .ok v := by
  obtain ⟨hlen, hspec⟩ := embedLoop_ok_spec ((getEmbeddings_ok_iff r blocks vs).mp h)
  refine ⟨hlen, fun i code hc => ?_⟩
  obtain ⟨toks, v, h1, h2, h3⟩ := hspec i code hc
  exact ⟨toks, v, h1, h2, by rw [List.length_take]; exact min_le_left _ _, h3⟩

/-- C6 witness: with a concrete tokenizer and model, two fragments yield two
vectors in order. -/
theorem C6_witness :
    ([[2], [1]] : List (List Int)).length = (["ab", "c"] : List String).length ∧
    ∀ i code, (["ab", "c"] : List String).get? i = some code →
      ∃ toks v, ([[2], [1]] : List (List Int)).get? i = some v ∧
        (fun s => (.ok [s.length] : Except String (List Nat))) code = .ok toks ∧
        (toks.take 512).length ≤ 512 ∧
        (fun ts => (.ok (ts.map Int.ofNat) : Except String (List Int)))
          (toks.take 512) = .ok v :=
  C6_one_vector_per_fragment_in_order
    ⟨fun ts => .ok (ts.map Int.ofNat), fun s => .ok [s.length]⟩
    ["ab", "c"] [[2], [1]] rfl

/-- C7: each cluster summary's frequency equals the number of fragments
assigned to its cluster id, its examples number at most 3, and the examples
are the earliest fragments of the cluster in original relative order (a
prefix of the cluster's fragment sequence). -/
theorem C7_summary_frequency_and_examples (clusters : List Int)
    (blocks : List String) (_hlen : clusters.length = blocks.length) :
    ∀ s ∈ analyzeClusters clusters blocks,
      s.frequency =
        ((clusters.zip blocks).filter (fun p => p.1 = s.cluster_id)).length ∧
      s.examples =
        (((clusters.zip blocks).filter
          (fun p => p.1 = s.cluster_id)).map Prod.snd).take 3 ∧
      s.examples.length ≤ 3 := by
  intro s hs
  simp only [analyzeClusters] at hs
  obtain ⟨cg, hcg, rfl⟩ := List.mem_map.mp hs
  obtain ⟨-, hval⟩ := mem_buildGroups hcg
  refine ⟨?_, ?_, ?_⟩
  · show cg.2.length = ((clusters.zip blocks).filter (fun p => p.1 = cg.1)).length
    rw [hval, List.length_map]
  · show cg.2.take 3 =
      (((clusters.zip blocks).filter (fun p => p.1 = cg.1)).map Prod.snd).take 3
    rw [hval]
  · exact List.length_take_le 3 cg.2

/-- C7 witness: a concrete label array and fragment list. -/
theorem C7_witness :
    summaryA.frequency =
      ((([0, -1, 0, 1, 1, 0, 0] : List Int).zip
          ["a", "b", "c", "d", "e", "f", "g"]).filter
        (fun p => p.1 = summaryA.cluster_id)).length ∧
    summaryA.examples =
      (((([0, -1, 0, 1, 1, 0, 0] : List Int).zip
          ["a", "b", "c", "d", "e", "f", "g"]).filter
        (fun p => p.1 = summaryA.cluster_id)).map Prod.snd).take 3 ∧
    summaryA.examples.length ≤ 3 :=
  C7_summary_frequency_and_examples [0, -1, 0, 1, 1, 0, 0]
    ["a", "b", "c", "d", "e", "f", "g"] rfl summaryA (by decide)

/-- C8: fragments labeled with the noise sentinel -1 are excluded: no summary
has cluster_id -1, every example comes from a non-noise pair, and frequencies
count only non-noise fragments of the summary's cluster. -/
theorem C8_noise_never_in_summaries (clusters : List Int) (blocks : List String) :
    ∀ s ∈ analyzeClusters clusters blocks,
      s.cluster_id ≠ -1 ∧
      (∀ e ∈ s.examples,
        (s.cluster_id, e) ∈ (clusters.zip blocks).filter (fun p => ¬ p.1 = -1)) ∧
      s.frequency =
        ((clusters.zip blocks).filter
          (fun p => ¬ p.1 = -1 ∧ p.1 = s.cluster_id)).length := by
  intro s hs
  simp only [analyzeClusters] at hs
  obtain ⟨cg, hcg, rfl⟩ := List.mem_map.mp hs
  obtain ⟨hne, hval⟩ := mem_buildGroups hcg
  refine ⟨hne, ?_, ?_⟩
  · intro e he
    have he2 : e ∈ cg.2 := List.mem_of_mem_take he
    rw [hval] at he2
    obtain ⟨p, hp, rfl⟩ := List.mem_map.mp he2
    have hp' := List.mem_filter.mp hp
    have hp1 : p.1 = cg.1 := of_decide_eq_true hp'.2
    have hpe : (cg.1, p.2) = p := by rw [← hp1]
    show (cg.1, p.2) ∈ (clusters.zip blocks).filter (fun p => ¬ p.1 = -1)
    rw [hpe]
    exact List.mem_filter.mpr ⟨hp'.1, decide_eq_true (by rw [hp1]; exact hne)⟩
  · have hcongr : ((clusters.zip blocks).filter (fun p => p.1 = cg.1)) =
        ((clusters.zip blocks).filter (fun p => ¬ p.1 = -1 ∧ p.1 = cg.1)) := by
      apply List.filter_congr
      intro p _
      by_cases hp : p.1 = cg.1
      · simp [hp, hne]
      · simp [hp]
    show cg.2.length = ((clusters.zip blocks).filter
        (fun p => ¬ p.1 = -1 ∧ p.1 = cg.1)).length
    rw [hval, List.length_map, hcongr]

/-- C8 witness: with one noise label among the input, the returned summary
satisfies the noise-exclusion properties. -/
theorem C8_witness :
    summaryB.cluster_id ≠ -1 ∧
    (∀ e ∈ summaryB.examples,
      (summaryB.cluster_id, e) ∈
        (([5, -1, 5] : List Int).zip ["u", "v", "w"]).filter (fun p => ¬ p.1 = -1)) ∧
    summaryB.frequency =
      ((([5, -1, 5] : List Int).zip ["u", "v", "w"]).filter
        (fun p => ¬ p.1 = -1 ∧ p.1 = summaryB.cluster_id)).length :=
  C8_noise_never_in_summaries [5, -1, 5] ["u", "v", "w"] summaryB (by decide)

/-- C10 witness: on the example input, the class record has frequency 1. -/
theorem C10_witness : (classPattern "test.py" "Foo").frequency = 1 := by
  have heval : analyze [("test.py", ⟨some fooTree⟩)] =
      .ok [classPattern "test.py" "Foo",
           methodPattern "test.py" "Foo" "bar",
           functionPattern "test.py" "baz" ["app.route"],
           functionPattern "test.py" "bar" []] := by
    rw [show analyze [("test.py", ⟨some fooTree⟩)] =
        .ok ([] ++ analyzeFile "test.py" fooTree) from rfl, analyzeFile_fooTree]
    rfl
  exact C10_frequency_one _ _ _ heval (by simp)
